import Mathlib

/-!
Shallow embedding of the geocoding cache and batch-resolution subsystem of
the calendar-maps application.

Sources embedded (TypeScript):
  - src/lib/geocoding.ts      — cache, coordinate parse helpers, geocodeAddress,
                                 batchGeocodeAddresses, geo math
  - route handler for POST /api/geocode — single-address shortcut and
                                 handleBatchGeocoding
  - src/components/CalendarMap.tsx — getZoomLevel

Modelling conventions:
  - JavaScript numbers are modelled as exact rationals (ℚ); timestamps
    (milliseconds from Date.now()) as integers (ℤ).
  - The module-level `Map` cache is threaded explicitly as an association
    list preserving JS `Map` insertion order; `Map.set` replaces an existing
    key in place and otherwise appends, `Map.delete` removes the key.
  - The network is an oracle `fetchGeocode : String → FetchResult` carried in
    an `Env` record together with the API-key configuration and the current
    clock; each function additionally returns the list of addresses for which
    a provider fetch was issued (the call trace), so "no network call" is a
    provable statement.
  - `async`/`await` effects are sequentialized; exceptions become
    `Except String` values carrying the thrown `Error` message.
-/

/-- Decidable equality for `Except`, used to evaluate resolver outcomes on
concrete inputs. -/
instance {ε α : Type} [DecidableEq ε] [DecidableEq α] : DecidableEq (Except ε α)
  | .error a, .error b =>
      if h : a = b then .isTrue (by rw [h]) else .isFalse (fun he => h (Except.error.inj he))
  | .error _, .ok _ => .isFalse Except.noConfusion
  | .ok _, .error _ => .isFalse Except.noConfusion
  | .ok a, .ok b =>
      if h : a = b then .isTrue (by rw [h]) else .isFalse (fun he => h (Except.ok.inj he))

namespace CalendarMaps

/-- Coordinate pair, JS numbers modelled as rationals. -/
structure Coordinates where
  lat : ℚ
  lng : ℚ
deriving DecidableEq, Repr

/-- Optional structured address breakdown built from the provider payload
(`components` record in geocoding.ts, keys country/state/city/street). -/
structure AddressParts where
  country : Option String
  state : Option String
  city : Option String
  street : Option String
deriving DecidableEq, Repr

/-- Result of resolving one address (`GeocodedLocation` in the source). -/
structure GeocodedLocation where
  address : String
  formattedAddress : String
  coordinates : Coordinates
  placeId : Option String
  components : Option AddressParts
deriving DecidableEq, Repr

/-- Cache entry (`CacheEntry<GeocodedLocation>` in the source):
payload plus creation timestamp and time-to-live, in milliseconds. -/
structure CacheEntry where
  data : GeocodedLocation
  timestamp : ℤ
  ttl : ℤ
deriving DecidableEq, Repr

/-- The in-memory geocode cache: a JS `Map<string, CacheEntry>` modelled as an
insertion-ordered association list with unique keys. -/
abbrev Cache := List (String × CacheEntry)

/-- JS `Map.get`: first (only) binding of the key. -/
def mapGetL {β : Type} : List (String × β) → String → Option β
  | [], _ => none
  | (k0, v) :: r, k => if k0 = k then some v else mapGetL r k

/-- JS `Map.set`: replace the binding in place when the key is present
(keeping its position in iteration order), otherwise append at the end. -/
def mapSetL {β : Type} : List (String × β) → String → β → List (String × β)
  | [], k, v => [(k, v)]
  | (k0, v0) :: r, k, v =>
      if k0 = k then (k, v) :: r else (k0, v0) :: mapSetL r k v

/-- JS `Map.delete`: remove the binding of the key. -/
def mapDelete {β : Type} (m : List (String × β)) (k : String) : List (String × β) :=
  m.filter (fun kv => kv.1 ≠ k)

/-- CACHE_TTL constant from geocoding.ts: one hour in milliseconds. -/
def CACHE_TTL : ℤ := 60 * 60 * 1000

/-- MAX_CACHE_SIZE constant from geocoding.ts. -/
def MAX_CACHE_SIZE : ℕ := 1000

/-- JS `String.prototype.toLowerCase`, modelled character-wise. -/
def jsToLower (s : String) : String :=
  String.mk (s.data.map Char.toLower)

/-- JS `String.prototype.trim`: drop leading and trailing whitespace. -/
def jsTrim (s : String) : String :=
  String.mk (((s.data.dropWhile Char.isWhitespace).reverse.dropWhile Char.isWhitespace).reverse)

/-- getCacheKey from geocoding.ts: lowercase then trim the address. -/
def getCacheKey (address : String) : String :=
  jsTrim (jsToLower address)

/-- Stable insertion step for the JS `Array.prototype.sort` call in
enforceMaxCacheSize (comparator `a.timestamp - b.timestamp`): a new element
passes over strictly smaller timestamps only, so elements with equal
timestamps keep their relative order, exactly as the (stable) JS sort. -/
def insertByTs (e : String × CacheEntry) : Cache → Cache
  | [] => [e]
  | f :: r => if f.2.timestamp < e.2.timestamp then f :: insertByTs e r
              else e :: f :: r

/-- Stable ascending sort by entry timestamp (the JS
`entries.sort((a, b) => a[1].timestamp - b[1].timestamp)`). -/
def sortByTs (c : Cache) : Cache :=
  c.foldr insertByTs []

/-- enforceMaxCacheSize from geocoding.ts, with the size limit as an explicit
first argument (the source reads the module constant MAX_CACHE_SIZE): when
the map is over the limit, sort the entries by timestamp and delete the
oldest `size - maxSize` keys from the map. -/
def enforceWith (maxSize : ℕ) (c : Cache) : Cache :=
  if c.length > maxSize then
    ((sortByTs c).take (c.length - maxSize)).foldl (fun acc kv => mapDelete acc kv.1) c
  else c

/-- enforceMaxCacheSize as in the source, at the module constant. -/
def enforceMaxCacheSize (c : Cache) : Cache :=
  enforceWith MAX_CACHE_SIZE c

/-- getCachedResult from geocoding.ts: lazy-expiring lookup. The mutated
cache is returned alongside the result (the source mutates the module map). -/
def getCachedResult (address : String) (now : ℤ) (cache : Cache) :
    Option GeocodedLocation × Cache :=
  let key := getCacheKey address
  match mapGetL cache key with
  | none => (none, cache)
  | some entry =>
      if now - entry.timestamp > entry.ttl then (none, mapDelete cache key)
      else (some entry.data, cache)

/-- cacheResult from geocoding.ts with the size limit explicit: store under
the normalized key with `timestamp = now`, `ttl = CACHE_TTL`, then enforce
the size limit. -/
def cacheResultWith (maxSize : ℕ) (address : String) (location : GeocodedLocation)
    (now : ℤ) (cache : Cache) : Cache :=
  enforceWith maxSize (mapSetL cache (getCacheKey address) ⟨location, now, CACHE_TTL⟩)

/-- cacheResult as in the source, at the module constant MAX_CACHE_SIZE. -/
def cacheResult (address : String) (location : GeocodedLocation)
    (now : ℤ) (cache : Cache) : Cache :=
  cacheResultWith MAX_CACHE_SIZE address location now cache

/-- Decimal value of a digit string. -/
def digitsVal (l : List Char) : ℕ :=
  l.foldl (fun n c => 10 * n + c.toNat - 48) 0

/-- Exact rational value of `parseFloat` on the token
`<intD>.<fracD>` (`fracD` possibly empty). -/
def ratOfDigits (intD fracD : List Char) : ℚ :=
  mkRat (digitsVal intD * 10 ^ fracD.length + digitsVal fracD) (10 ^ fracD.length)

/-- Scanner for the unsigned part `\d+\.?\d*` of the number token of the two
coordinate regexes: one or more digits, an optional dot, then any further
digits, by maximal munch. Returns the parsed value and the rest of the
input. -/
def scanUnsigned (cs : List Char) : Option (ℚ × List Char) :=
  if cs.takeWhile Char.isDigit = [] then none
  else
    match cs.dropWhile Char.isDigit with
    | '.' :: r2 =>
        some (ratOfDigits (cs.takeWhile Char.isDigit) (r2.takeWhile Char.isDigit),
          r2.dropWhile Char.isDigit)
    | rest1 => some (ratOfDigits (cs.takeWhile Char.isDigit) [], rest1)

/-- Scanner for the number token `-?\d+\.?\d*` of the two coordinate regexes
in parseCoordinatesFromLocation, with JS greedy-match semantics: an optional
minus sign, then the unsigned token; the value is parseFloat of the token,
exact in ℚ. Greedy matching with backtracking coincides with this maximal
munch here because in both regexes the token is followed by a character
(',', ')', whitespace or end) that is neither a digit nor a dot. -/
def scanNumber (cs : List Char) : Option (ℚ × List Char) :=
  match cs with
  | '-' :: r => (scanUnsigned r).map (fun p => (-p.1, p.2))
  | _ => scanUnsigned cs

/-- Attempt the parenthesized pattern `\((-?\d+\.?\d*),\s*(-?\d+\.?\d*)\)` at
the head of the input; on success return latitude, longitude, and the input
remaining after the closing parenthesis. -/
def tryParenAt (cs : List Char) : Option (ℚ × ℚ × List Char) :=
  match cs with
  | '(' :: r1 =>
      match scanNumber r1 with
      | none => none
      | some (lat, r2) =>
          match r2 with
          | ',' :: r3 =>
              let r4 := r3.dropWhile Char.isWhitespace
              match scanNumber r4 with
              | none => none
              | some (lng, r5) =>
                  match r5 with
                  | ')' :: r6 => some (lat, lng, r6)
                  | _ => none
          | _ => none
  | _ => none

/-- Leftmost search for the parenthesized coordinate pattern (the JS
`location.match(...)` for pattern 1). Returns the characters before the
match, the two coordinates, and the characters after the match. -/
def findParen : List Char → Option (List Char × ℚ × ℚ × List Char)
  | [] => none
  | c :: cs =>
      match tryParenAt (c :: cs) with
      | some (lat, lng, rest) => some ([], lat, lng, rest)
      | none =>
          match findParen cs with
          | some (pre, lat, lng, rest) => some (c :: pre, lat, lng, rest)
          | none => none

/-- Full-string match of pattern 2, `^(-?\d+\.?\d*)\s*,\s*(-?\d+\.?\d*)$`
(only consulted when pattern 1 finds no match). -/
def coordPattern2 (cs : List Char) : Option (ℚ × ℚ) :=
  match scanNumber cs with
  | none => none
  | some (lat, r1) =>
      match r1.dropWhile Char.isWhitespace with
      | ',' :: r3 =>
          match scanNumber (r3.dropWhile Char.isWhitespace) with
          | some (lng, []) => some (lat, lng)
          | _ => none
      | _ => none

/-- Output shape of parseCoordinatesFromLocation. -/
structure ParsedLocation where
  coordinates : Option Coordinates
  address : String
deriving DecidableEq, Repr

/-- parseCoordinatesFromLocation from geocoding.ts. Pattern 1: a
parenthesized pair anywhere in the string; on match the matched substring is
removed (JS `replace` of the first occurrence, which is the match itself)
and the remainder trimmed. Pattern 2: the entire (untrimmed) string is
`lat,lng` with optional whitespace around the comma; on match the address is
returned unchanged. Otherwise no coordinates. -/
def parseCoordinatesFromLocation (location : String) : ParsedLocation :=
  match findParen location.data with
  | some (pre, lat, lng, post) =>
      { coordinates := some ⟨lat, lng⟩
        address := jsTrim (String.mk (pre ++ post)) }
  | none =>
      match coordPattern2 location.data with
      | some (lat, lng) =>
          { coordinates := some ⟨lat, lng⟩, address := location }
      | none => { coordinates := none, address := location }

/-- isValidCoordinates from geocoding.ts. -/
def isValidCoordinates (lat lng : ℚ) : Bool :=
  lat ≥ -90 && lat ≤ 90 && lng ≥ -180 && lng ≤ 180

/-- One element of the `address_components` array of the provider payload. -/
structure AddressComponent where
  long_name : String
  short_name : String
  types : List String
deriving DecidableEq, Repr

/-- First element of the `results` array of the provider payload. -/
structure GeoResult where
  formatted_address : String
  lat : ℚ
  lng : ℚ
  place_id : Option String
  address_components : Option (List AddressComponent)
deriving DecidableEq, Repr

/-- Provider payload (`data` after `response.json()` in geocodeAddress):
optional `error_message`, optional `results` array. -/
structure GeocodePayload where
  error_message : Option String
  results : Option (List GeoResult)
deriving DecidableEq, Repr

/-- Outcome of the `fetch` to the provider: HTTP failure (`!response.ok`,
carrying the status), a thrown exception from `fetch`/`response.json()`
(network error, malformed body, timeout — carrying the error message), or a
parsed payload. -/
inductive FetchResult where
  | notOk (status : ℕ)
  | reject (msg : String)
  | ok (payload : GeocodePayload)
deriving DecidableEq, Repr

/-- Execution environment of one request: the GOOGLE_MAPS_API_KEY
environment variable (`none` when unset), the provider as a deterministic
oracle from address to fetch outcome, and the current clock (`Date.now()`). -/
structure Env where
  apiKey : Option String
  fetchGeocode : String → FetchResult
  now : ℤ

/-- JS falsiness of `process.env.GOOGLE_MAPS_API_KEY`: unset or empty. -/
def apiKeyMissing : Option String → Bool
  | none => true
  | some s => s = ""

/-- The `address_components` loop of geocodeAddress: scan the components,
recording country (long name), administrative_area_level_1 (short name),
locality (long name) and route (long name); later components of the same
type overwrite earlier ones. -/
def parseComponents (cs : List AddressComponent) : AddressParts :=
  cs.foldl
    (fun acc comp =>
      if "country" ∈ comp.types then { acc with country := some comp.long_name }
      else if "administrative_area_level_1" ∈ comp.types then
        { acc with state := some comp.short_name }
      else if "locality" ∈ comp.types then { acc with city := some comp.long_name }
      else if "route" ∈ comp.types then { acc with street := some comp.long_name }
      else acc)
    ⟨none, none, none, none⟩

/-- The `Object.keys(components).length > 0` check: some field was set. -/
def componentsNonEmpty (p : AddressParts) : Bool :=
  p.country.isSome || p.state.isSome || p.city.isSome || p.street.isSome

/-- Construction of the `GeocodedLocation` from the first provider result in
geocodeAddress (formatted address, coordinates, place id, and the
components record when non-empty). -/
def buildLocation (address : String) (r : GeoResult) : GeocodedLocation :=
  { address := address
    formattedAddress := r.formatted_address
    coordinates := ⟨r.lat, r.lng⟩
    placeId := r.place_id
    components :=
      match r.address_components with
      | none => none
      | some cs =>
          let p := parseComponents cs
          if componentsNonEmpty p then some p else none }

/-- Error message for the zero-candidates case. -/
def noResultsMsg (address : String) : String :=
  "No geocoding results found for \"" ++ address ++ "\""

/-- geocodeAddress from geocoding.ts, sequentialized. Returns the result
(success or thrown error message), the cache after the call, and the list of
addresses for which a provider fetch was issued. The source checks the
cache BEFORE validating the input; on a hit it returns immediately. On a
successful provider lookup the location is cached under the original
address; every failure is thrown without caching anything. -/
def geocodeAddress (env : Env) (address : String) (cache : Cache) :
    Except String GeocodedLocation × Cache × List String :=
  match getCachedResult address env.now cache with
  | (some cached, cache1) => (.ok cached, cache1, [])
  | (none, cache1) =>
      if address = "" || jsTrim address = "" then
        (.error "Address is required", cache1, [])
      else if apiKeyMissing env.apiKey then
        (.error "GOOGLE_MAPS_API_KEY is not configured", cache1, [])
      else
        match env.fetchGeocode address with
        | .notOk status =>
            (.error ("Geocoding API error: " ++ toString status), cache1, [address])
        | .reject msg => (.error msg, cache1, [address])
        | .ok payload =>
            match payload.error_message with
            | some msg =>
                (.error ("Geocoding API error: " ++ msg), cache1, [address])
            | none =>
                match payload.results with
                | none => (.error (noResultsMsg address), cache1, [address])
                | some [] => (.error (noResultsMsg address), cache1, [address])
                | some (r :: _) =>
                    let location := buildLocation address r
                    (.ok location, cacheResult address location env.now cache1,
                      [address])

/-- Helper for jsSetDedup: keep elements not seen before, remembering the
set of elements already kept. -/
def jsSetDedupAux (seen : List String) : List String → List String
  | [] => []
  | a :: l =>
      if a ∈ seen then jsSetDedupAux seen l
      else a :: jsSetDedupAux (a :: seen) l

/-- The deduplication `Array.from(new Set(addresses))`: keep the first
occurrence of each address, in insertion order (JS `Set` iterates in
insertion order). -/
def jsSetDedup (l : List String) : List String :=
  jsSetDedupAux [] l

/-- Accumulated state of one batchGeocodeAddresses run: the `results` and
`errors` maps, the shared cache, and the provider call trace. -/
structure BatchState where
  results : List (String × GeocodedLocation)
  errors : List (String × String)
  cache : Cache
  trace : List String
deriving Repr

/-- Resolution of one address inside a chunk of batchGeocodeAddresses:
successes are recorded in `results`, failures (the `.catch`) in `errors`
keyed by the original address with the thrown error message. -/
def batchStep (env : Env) (st : BatchState) (addr : String) : BatchState :=
  match geocodeAddress env addr st.cache with
  | (.ok location, c, tr) =>
      { st with results := mapSetL st.results addr location, cache := c,
                trace := st.trace ++ tr }
  | (.error msg, c, tr) =>
      { st with errors := mapSetL st.errors addr msg, cache := c,
                trace := st.trace ++ tr }

/-- One `await Promise.all(...)` group of batchGeocodeAddresses,
sequentialized in chunk order. -/
def processChunk (env : Env) (st : BatchState) (chunk : List String) : BatchState :=
  chunk.foldl (batchStep env) st

/-- Helper for chunksOf: fuel-driven structural recursion (the fuel is an
upper bound on the number of chunks). -/
def chunksOfAux (n : ℕ) : ℕ → List String → List (List String)
  | 0, _ => []
  | _, [] => []
  | fuel + 1, l => (l.take n) :: chunksOfAux n fuel (l.drop n)

/-- The chunking `uniqueAddresses.slice(i, i + parallel)` of the loop
`for (i = 0; i < n; i += parallel)`: split the list into consecutive groups
of `n` elements. For `n = 0` the JS loop never terminates; the model is
only meaningful for positive `n` (each recursive step then strictly shrinks
the list, so `l.length` steps of fuel always suffice). -/
def chunksOf (n : ℕ) (l : List String) : List (List String) :=
  chunksOfAux n l.length l

/-- batchGeocodeAddresses from geocoding.ts as a state transformer:
deduplicate, then process chunks of size `parallel`, accumulating results
and errors (the 100ms pause between chunks has no observable effect in the
model). -/
def batchGeocodeRun (env : Env) (addresses : List String) (parallel : ℕ)
    (cache : Cache) : BatchState :=
  (chunksOf parallel (jsSetDedup addresses)).foldl (processChunk env)
    ⟨[], [], cache, []⟩

/-- The value returned by batchGeocodeAddresses: only the `results` map.
The `errors` map is only passed to `console.warn` and is not part of the
return value. -/
def batchGeocodeAddresses (env : Env) (addresses : List String) (parallel : ℕ)
    (cache : Cache) : List (String × GeocodedLocation) :=
  (batchGeocodeRun env addresses parallel cache).results

/-- Response of the POST /api/geocode single-address path: 200 with the
location, 400 bad request, or 404 with the geocoding failure message. -/
inductive SingleResponse where
  | okData (data : GeocodedLocation)
  | badRequest (msg : String)
  | geocodeFailed (msg : String)
deriving DecidableEq, Repr

/-- The `try geocodeAddress / catch` fallback of the single-address POST
path: a resolved location becomes a 200 response, a thrown error a 404
response with the error message. -/
def geocodePath (env : Env) (address : String) (cache : Cache) :
    SingleResponse × Cache × List String :=
  match geocodeAddress env address cache with
  | (.ok location, c, tr) => (.okData location, c, tr)
  | (.error msg, c, tr) => (.geocodeFailed msg, c, tr)

/-- Single-address path of POST /api/geocode (route handler): validate that
`address` is a non-empty string, try the embedded-coordinate shortcut
(parseCoordinatesFromLocation plus isValidCoordinates) which synthesizes a
location with `formattedAddress = address` and no placeId/components without
touching the cache or the provider, and otherwise fall through to
geocodeAddress. -/
def handlePostSingle (env : Env) (address : String) (cache : Cache) :
    SingleResponse × Cache × List String :=
  if address = "" then
    (.badRequest "address parameter is required and must be a string", cache, [])
  else
    let parsed := parseCoordinatesFromLocation address
    match parsed.coordinates with
    | some co =>
        if isValidCoordinates co.lat co.lng then
          (.okData ⟨address, address, co, none, none⟩, cache, [])
        else geocodePath env address cache
    | none => geocodePath env address cache

/-- Response of handleBatchGeocoding: 400 bad request, or 200 with the
results map, the number geocoded, and the failed count
`validAddresses.length - geocoded` (a plain JS subtraction). -/
inductive BatchResponse where
  | badRequest (msg : String)
  | okRes (data : List (String × GeocodedLocation)) (geocoded : ℕ) (failed : ℤ)
deriving DecidableEq, Repr

/-- The `validAddresses` filter of handleBatchGeocoding: keep the entries
that are non-whitespace strings (every entry is a string in the model). -/
def validAddressesOf (addresses : List String) : List String :=
  addresses.filter (fun a => jsTrim a ≠ "")

/-- handleBatchGeocoding from the POST /api/geocode route handler: reject an
empty list, a list of more than 100 addresses, and a list in which no entry
is a non-whitespace string; otherwise filter to the valid addresses and run
batchGeocodeAddresses with parallelism 5. -/
def handleBatchGeocoding (env : Env) (addresses : List String) (cache : Cache) :
    BatchResponse × Cache × List String :=
  if addresses.length = 0 then
    (.badRequest "addresses must be a non-empty array", cache, [])
  else if addresses.length > 100 then
    (.badRequest "Maximum 100 addresses per batch request", cache, [])
  else if (validAddressesOf addresses).length = 0 then
    (.badRequest "No valid addresses provided", cache, [])
  else
    let st := batchGeocodeRun env (validAddressesOf addresses) 5 cache
    (.okRes st.results st.results.length
        (((validAddressesOf addresses).length : ℤ) - (st.results.length : ℤ)),
      st.cache, st.trace)

/-- Bounding box as used by getZoomLevel in CalendarMap.tsx. -/
structure Bounds where
  ne : Coordinates
  sw : Coordinates
deriving DecidableEq, Repr

/-- getZoomLevel from CalendarMap.tsx. The threshold constants of the
source are 10, 5, 1 and 0.1 degrees (0.1 written `mkRat 1 10`). -/
def getZoomLevel (bounds : Bounds) : ℕ :=
  let latDiff := |bounds.ne.lat - bounds.sw.lat|
  let lngDiff := |bounds.ne.lng - bounds.sw.lng|
  if latDiff = 0 ∧ lngDiff = 0 then 14
  else
    let maxDiff := max latDiff lngDiff
    if maxDiff > 10 then 6
    else if maxDiff > 5 then 8
    else if maxDiff > 1 then 10
    else if maxDiff > mkRat 1 10 then 12
    else 14

/-- The larger of the two extents of a bounding box. -/
def boxSpan (bounds : Bounds) : ℚ :=
  max |bounds.ne.lat - bounds.sw.lat| |bounds.ne.lng - bounds.sw.lng|

/-- The zoom step function expressed on the span alone. -/
def zoomOfSpan (s : ℚ) : ℕ :=
  if s > 10 then 6
  else if s > 5 then 8
  else if s > 1 then 10
  else if s > mkRat 1 10 then 12
  else 14

/-- A sequence of cacheResult insertions (size limit `m` explicit), each
item carrying its address, location and insertion timestamp. -/
def putManyWith (m : ℕ) (items : List (String × GeocodedLocation × ℤ))
    (c : Cache) : Cache :=
  items.foldl (fun acc it => cacheResultWith m it.1 it.2.1 it.2.2 acc) c

/-- The cache entry a putManyWith item produces. -/
def entryOf (it : String × GeocodedLocation × ℤ) : String × CacheEntry :=
  (getCacheKey it.1, ⟨it.2.1, it.2.2, CACHE_TTL⟩)

/-- Environment whose provider always answers with an empty result list
(zero candidates), with a configured API key and the given clock. -/
def envZeroResults (now : ℤ) : Env :=
  ⟨some "k", fun _ => .ok ⟨none, some []⟩, now⟩

/-- Environment whose provider answers every address with a single
candidate at latitude 91, longitude 0 — outside the valid range. -/
def envLat91 : Env :=
  ⟨some "k", fun _ => .ok ⟨none, some [⟨"F", 91, 0, none, none⟩]⟩, 0⟩

/-- Environment whose provider always throws a network error. -/
def envNetErr : Env :=
  ⟨some "k", fun _ => .reject "network down", 0⟩

/-- The location the lat-91 provider candidate resolves to. -/
def locLat91 : GeocodedLocation := ⟨"X", "F", ⟨91, 0⟩, none, none⟩

/-- An arbitrary well-formed location used to pre-populate caches. -/
def locX : GeocodedLocation := ⟨"X", "F", ⟨1, 2⟩, none, none⟩

end CalendarMaps

namespace CalendarMaps

lemma mkRat_one_ten : (mkRat 1 10 : ℚ) = 1 / 10 := by
  rw [Rat.mkRat_eq_div]
  norm_num

lemma getZoomLevel_eq_zoomOfSpan (b : Bounds) :
    getZoomLevel b = zoomOfSpan (boxSpan b) := by
  unfold getZoomLevel zoomOfSpan boxSpan
  by_cases h : |b.ne.lat - b.sw.lat| = 0 ∧ |b.ne.lng - b.sw.lng| = 0
  · rw [if_pos h, h.1, h.2]
    rw [mkRat_one_ten]
    norm_num
  · rw [if_neg h]

lemma zoomOfSpan_antitone {s1 s2 : ℚ} (h : s1 ≤ s2) :
    zoomOfSpan s2 ≤ zoomOfSpan s1 := by
  unfold zoomOfSpan
  split_ifs <;> first | rfl | omega | linarith

/-- Claim C9: getZoomLevel is a step function of the larger of the lat-span
and lng-span of the bounding box: 6 for spans above 10 degrees, 8 on
(5, 10], 10 on (1, 5], 12 on (0.1, 1], and 14 (the highest zoom) for any
span of at most 0.1 degrees, including span 0; consequently a larger span
never yields a higher zoom level. -/
theorem claim9_zoom_step_monotone :
    (∀ b : Bounds, 10 < boxSpan b → getZoomLevel b = 6) ∧
    (∀ b : Bounds, 5 < boxSpan b → boxSpan b ≤ 10 → getZoomLevel b = 8) ∧
    (∀ b : Bounds, 1 < boxSpan b → boxSpan b ≤ 5 → getZoomLevel b = 10) ∧
    (∀ b : Bounds, mkRat 1 10 < boxSpan b → boxSpan b ≤ 1 → getZoomLevel b = 12) ∧
    (∀ b : Bounds, boxSpan b ≤ mkRat 1 10 → getZoomLevel b = 14) ∧
    (∀ b1 b2 : Bounds, boxSpan b1 ≤ boxSpan b2 → getZoomLevel b2 ≤ getZoomLevel b1) := by
  refine ⟨?_, ?_, ?_, ?_, ?_, ?_⟩
  · intro b h
    rw [getZoomLevel_eq_zoomOfSpan, zoomOfSpan, if_pos h]
  · intro b h1 h2
    rw [getZoomLevel_eq_zoomOfSpan, zoomOfSpan]
    rw [if_neg (by linarith), if_pos h1]
  · intro b h1 h2
    rw [getZoomLevel_eq_zoomOfSpan, zoomOfSpan]
    rw [if_neg (by linarith), if_neg (by linarith), if_pos h1]
  · intro b h1 h2
    rw [getZoomLevel_eq_zoomOfSpan, zoomOfSpan, mkRat_one_ten] at *
    rw [if_neg (by linarith), if_neg (by linarith), if_neg (by linarith), if_pos h1]
  · intro b h
    rw [getZoomLevel_eq_zoomOfSpan, zoomOfSpan, mkRat_one_ten] at *
    have h1 : (1 : ℚ) / 10 ≤ 1 := by norm_num
    rw [if_neg (by linarith), if_neg (by linarith), if_neg (by linarith),
      if_neg (by linarith)]
  · intro b1 b2 h
    rw [getZoomLevel_eq_zoomOfSpan, getZoomLevel_eq_zoomOfSpan]
    exact zoomOfSpan_antitone h

/-- Witness for C9 at concrete boxes: a 20-degree span yields zoom 6, a
zero-extent box yields zoom 14, and a span-0.05 box yields zoom 14. -/
theorem claim9_zoom_step_monotone_witness :
    getZoomLevel ⟨⟨20, 0⟩, ⟨0, 0⟩⟩ = 6 ∧
    getZoomLevel ⟨⟨3, 7⟩, ⟨3, 7⟩⟩ = 14 ∧
    getZoomLevel ⟨⟨mkRat 5 100, 0⟩, ⟨0, 0⟩⟩ = 14 := by
  refine ⟨?_, ?_, ?_⟩
  · exact claim9_zoom_step_monotone.1 ⟨⟨20, 0⟩, ⟨0, 0⟩⟩
      (by rw [boxSpan]; norm_num)
  · exact claim9_zoom_step_monotone.2.2.2.2.1 ⟨⟨3, 7⟩, ⟨3, 7⟩⟩
      (by rw [boxSpan, mkRat_one_ten]; norm_num)
  · refine claim9_zoom_step_monotone.2.2.2.2.1 ⟨⟨mkRat 5 100, 0⟩, ⟨0, 0⟩⟩ ?_
    rw [boxSpan, mkRat_one_ten, Rat.mkRat_eq_div]
    norm_num [abs_of_nonneg]

lemma mapGetL_mapSetL_self {β : Type} (c : List (String × β)) (k : String) (v : β) :
    mapGetL (mapSetL c k v) k = some v := by
  induction c with
  | nil => simp [mapSetL, mapGetL]
  | cons hd t ih =>
      obtain ⟨k0, v0⟩ := hd
      by_cases hk : k0 = k
      · simp [mapSetL, hk, mapGetL]
      · simp [mapSetL, hk, mapGetL, ih]

lemma length_mapSetL_le {β : Type} (c : List (String × β)) (k : String) (v : β) :
    (mapSetL c k v).length ≤ c.length + 1 := by
  induction c with
  | nil => simp [mapSetL]
  | cons hd t ih =>
      obtain ⟨k0, v0⟩ := hd
      by_cases hk : k0 = k
      · simp [mapSetL, hk]
      · simp only [mapSetL, if_neg hk, List.length_cons]
        omega

lemma enforceWith_eq_of_le {m : ℕ} {c : Cache} (h : c.length ≤ m) :
    enforceWith m c = c := by
  unfold enforceWith
  rw [if_neg]
  omega

lemma cacheResult_eq_mapSetL {c : Cache} (addr : String) (loc : GeocodedLocation)
    (now : ℤ) (h : c.length < MAX_CACHE_SIZE) :
    cacheResult addr loc now c
      = mapSetL c (getCacheKey addr) ⟨loc, now, CACHE_TTL⟩ := by
  unfold cacheResult cacheResultWith
  apply enforceWith_eq_of_le
  have := length_mapSetL_le c (getCacheKey addr) (⟨loc, now, CACHE_TTL⟩ : CacheEntry)
  omega

/-- Claim C6: the cache TTL is one hour; putting a location and then looking
it up under any casing/whitespace variant of the address (same
lowercase-and-trim key) returns the location while the age of the entry is at
most the TTL, and once the age exceeds the TTL the lookup deletes the entry
and reports absent. (`c.length < MAX_CACHE_SIZE` keeps the insertion itself
from evicting; the source cache never exceeds the maximum.) -/
theorem claim6_cache_roundtrip_ttl :
    CACHE_TTL = 3600000 ∧
    ∀ (c : Cache) (addr addrV : String) (loc : GeocodedLocation) (now nowG : ℤ),
      getCacheKey addrV = getCacheKey addr → c.length < MAX_CACHE_SIZE →
      ((nowG - now ≤ CACHE_TTL →
          getCachedResult addrV nowG (cacheResult addr loc now c)
            = (some loc, cacheResult addr loc now c)) ∧
       (nowG - now > CACHE_TTL →
          getCachedResult addrV nowG (cacheResult addr loc now c)
            = (none, mapDelete (cacheResult addr loc now c) (getCacheKey addr)))) := by
  refine ⟨rfl, ?_⟩
  intro c addr addrV loc now nowG hkey hlen
  have hset := cacheResult_eq_mapSetL addr loc now (c := c) hlen
  have hget : mapGetL (cacheResult addr loc now c) (getCacheKey addrV)
      = some ⟨loc, now, CACHE_TTL⟩ := by
    rw [hset, hkey]
    exact mapGetL_mapSetL_self c (getCacheKey addr) _
  constructor
  · intro hage
    unfold getCachedResult
    simp only [hget]
    rw [if_neg (by omega)]
  · intro hage
    unfold getCachedResult
    simp only [hget]
    rw [if_pos (by omega), hkey]

/-- Witness for C6: caching under "Paris" and reading back under " PARIS "
succeeds 10ms later and is gone 3600001ms later. -/
theorem claim6_cache_roundtrip_ttl_witness :
    getCacheKey " PARIS " = getCacheKey "Paris" ∧
    getCachedResult " PARIS " 10
        (cacheResult "Paris" ⟨"Paris", "Paris, France", ⟨2, 48⟩, none, none⟩ 0 [])
      = (some ⟨"Paris", "Paris, France", ⟨2, 48⟩, none, none⟩,
         cacheResult "Paris" ⟨"Paris", "Paris, France", ⟨2, 48⟩, none, none⟩ 0 []) ∧
    getCachedResult " PARIS " 3600001
        (cacheResult "Paris" ⟨"Paris", "Paris, France", ⟨2, 48⟩, none, none⟩ 0 [])
      = (none,
         mapDelete
           (cacheResult "Paris" ⟨"Paris", "Paris, France", ⟨2, 48⟩, none, none⟩ 0 [])
           (getCacheKey "Paris")) := by
  have hkey : getCacheKey " PARIS " = getCacheKey "Paris" := by decide
  have hmain := claim6_cache_roundtrip_ttl.2 []
    "Paris" " PARIS " ⟨"Paris", "Paris, France", ⟨2, 48⟩, none, none⟩ 0
  exact ⟨hkey,
    (hmain 10 hkey (by decide)).1 (by decide),
    (hmain 3600001 hkey (by decide)).2 (by decide)⟩

/-- Counterexample to claim C5: geocodeAddress consults the cache BEFORE
validating the input. With an entry stored under the empty normalized key,
the whitespace-only address " " is answered successfully from the cache
instead of failing with the invalid-input error, so input validation is not
performed before the cache check. -/
theorem claim5_counterexample :
    jsTrim " " = "" ∧
    geocodeAddress (envZeroResults 0) " " [("", ⟨locX, 0, 3600000⟩)]
      = (.ok locX, [("", ⟨locX, 0, 3600000⟩)], []) := by
  constructor
  · decide
  · decide

/-- Claim C5 (amended): geocodeAddress performs the cache lookup first; for
an empty or whitespace-only address, whenever that lookup misses, the call
fails with the invalid-input error "Address is required" and no provider
call is made (the only possible cache change being the lazy expiry, by the
lookup itself, of the queried key). -/
theorem claim5_whitespace_invalid_input (env : Env) (address : String) (cache : Cache)
    (htrim : jsTrim address = "")
    (hmiss : (getCachedResult address env.now cache).1 = none) :
    geocodeAddress env address cache
      = (.error "Address is required", (getCachedResult address env.now cache).2, []) := by
  rcases hG : getCachedResult address env.now cache with ⟨r, c1⟩
  rw [hG] at hmiss
  simp only at hmiss
  subst hmiss
  unfold geocodeAddress
  rw [hG]
  simp [htrim]

/-- Witness for C5 (amended) at the whitespace address " " with an empty
cache: the call fails with "Address is required", touching nothing. -/
theorem claim5_whitespace_invalid_input_witness :
    geocodeAddress (envZeroResults 0) " " []
      = (.error "Address is required", (getCachedResult " " 0 []).2, []) :=
  claim5_whitespace_invalid_input (envZeroResults 0) " " [] (by decide) (by decide)

lemma getCachedResult_snd (addr : String) (now : ℤ) (cache : Cache) :
    (getCachedResult addr now cache).2 = cache ∨
    (getCachedResult addr now cache).2 = mapDelete cache (getCacheKey addr) := by
  unfold getCachedResult
  rcases h : mapGetL cache (getCacheKey addr) with _ | e
  · simp [h]
  · simp only [h]
    split_ifs <;> simp

/-- Counterexample to claim C10: a failing resolution can change the cache.
Starting from a cache holding an expired entry for "paris" and a provider
that returns zero candidates at time 3600001, geocodeAddress "paris" fails
with the not-found error, yet the cache entry has been removed (lazy expiry
during the pre-validation cache check), so the cache is not left exactly
unchanged on failure. -/
theorem claim10_counterexample :
    geocodeAddress (envZeroResults 3600001) "paris" [("paris", ⟨locX, 0, 3600000⟩)]
      = (.error (noResultsMsg "paris"), [], ["paris"]) ∧
    ([("paris", (⟨locX, 0, 3600000⟩ : CacheEntry))] : Cache) ≠ [] := by
  constructor
  · decide
  · decide

/-- Claim C10 (amended): whenever geocodeAddress fails, no entry is added or
modified: the resulting cache is either exactly the input cache or the input
cache with the expired entry of the queried key lazily removed by the initial
cache check; in particular failures are never cached. -/
theorem claim10_failure_cache_shape (env : Env) (address : String) (cache : Cache)
    (msg : String) (c2 : Cache) (tr : List String)
    (h : geocodeAddress env address cache = (.error msg, c2, tr)) :
    c2 = cache ∨ c2 = mapDelete cache (getCacheKey address) := by
  have hsnd := getCachedResult_snd address env.now cache
  rcases hG : getCachedResult address env.now cache with ⟨r, c1⟩
  rw [hG] at hsnd
  simp only at hsnd
  unfold geocodeAddress at h
  rw [hG] at h
  rcases r with _ | cached
  · simp only at h
    split_ifs at h with h1 h2
    · injection h with hA hBC
      injection hBC with hB hC
      exact hB ▸ hsnd
    · injection h with hA hBC
      injection hBC with hB hC
      exact hB ▸ hsnd
    · rcases hF : env.fetchGeocode address with status | m | payload <;>
        rw [hF] at h <;> simp only at h
      · injection h with hA hBC
        injection hBC with hB hC
        exact hB ▸ hsnd
      · injection h with hA hBC
        injection hBC with hB hC
        exact hB ▸ hsnd
      · rcases hE : payload.error_message with _ | m <;>
          rw [hE] at h <;> simp only at h
        · rcases hR : payload.results with _ | rs <;>
            rw [hR] at h <;> try simp only at h
          · injection h with hA hBC
            injection hBC with hB hC
            exact hB ▸ hsnd
          · rcases rs with _ | ⟨r0, rrest⟩ <;> simp only at h
            · injection h with hA hBC
              injection hBC with hB hC
              exact hB ▸ hsnd
            · injection h with hA hBC
              exact Except.noConfusion hA
        · injection h with hA hBC
          injection hBC with hB hC
          exact hB ▸ hsnd
  · simp only at h
    injection h with hA hBC
    exact Except.noConfusion hA

/-- Witness for C10 (amended): the concrete failing run of the C10
counterexample leaves a cache that is the input cache with the expired
"paris" entry removed. -/
theorem claim10_failure_cache_shape_witness :
    ([] : Cache) = ([("paris", (⟨locX, 0, 3600000⟩ : CacheEntry))] : Cache) ∨
    ([] : Cache) = mapDelete [("paris", ⟨locX, 0, 3600000⟩)] (getCacheKey "paris") :=
  claim10_failure_cache_shape (envZeroResults 3600001) "paris"
    [("paris", ⟨locX, 0, 3600000⟩)] (noResultsMsg "paris") [] ["paris"] (by decide)

lemma parse_empty_string : parseCoordinatesFromLocation "" = ⟨none, ""⟩ := by decide

lemma parse_coords_ne_empty {address : String} {co : Coordinates}
    (hparse : (parseCoordinatesFromLocation address).coordinates = some co) :
    address ≠ "" := by
  intro h0
  subst h0
  rw [parse_empty_string] at hparse
  exact Option.noConfusion hparse

/-- Claim C4: when the coordinate parser finds an embedded coordinate pair
in the address and that pair passes range validation, the POST handler
returns a synthesized location whose formattedAddress is the input address
with no placeId and no components, leaves the cache unchanged (nothing is
cached under the original address), and issues no provider call (empty call
trace, result independent of the provider oracle). -/
theorem claim4_embedded_shortcut (env : Env) (address : String) (cache : Cache)
    (co : Coordinates)
    (hparse : (parseCoordinatesFromLocation address).coordinates = some co)
    (hvalid : isValidCoordinates co.lat co.lng = true) :
    handlePostSingle env address cache
      = (.okData ⟨address, address, co, none, none⟩, cache, []) := by
  unfold handlePostSingle
  rw [if_neg (parse_coords_ne_empty hparse)]
  simp only [hparse, hvalid, if_true]

/-- Witness for C4: the address "HQ (37.5, -122.25)" short-circuits to a
synthesized location even though the provider would throw. -/
theorem claim4_embedded_shortcut_witness :
    handlePostSingle envNetErr "HQ (37.5, -122.25)" []
      = (.okData ⟨"HQ (37.5, -122.25)", "HQ (37.5, -122.25)",
          ⟨mkRat 375 10, -(mkRat 12225 100)⟩, none, none⟩, [], []) :=
  claim4_embedded_shortcut envNetErr "HQ (37.5, -122.25)" []
    ⟨mkRat 375 10, -(mkRat 12225 100)⟩ (by decide) (by decide)

/-- Counterexample to claim C2: geocodeAddress performs no range validation
on provider results. With a provider candidate at latitude 91 (invalid),
the resolver returns it as a success AND writes it to the cache, so an
out-of-range resolved location is both cached and returned. -/
theorem claim2_counterexample :
    isValidCoordinates (91 : ℚ) 0 = false ∧
    geocodeAddress envLat91 "X" []
      = (.ok locLat91, [("x", ⟨locLat91, 0, 3600000⟩)], ["X"]) := by
  constructor
  · decide
  · decide

/-- Claim C2 (amended): only the embedded-coordinate shortcut of the route
handler validates coordinate ranges: an embedded pair that fails
validation is never returned as a shortcut success (the handler falls
through to the provider path); provider results themselves are cached and
returned without range validation. -/
theorem claim2_shortcut_range_validated (env : Env) (address : String) (cache : Cache)
    (co : Coordinates)
    (hparse : (parseCoordinatesFromLocation address).coordinates = some co)
    (hinvalid : isValidCoordinates co.lat co.lng = false) :
    handlePostSingle env address cache = geocodePath env address cache := by
  unfold handlePostSingle
  rw [if_neg (parse_coords_ne_empty hparse)]
  simp only [hparse, hinvalid]
  rw [if_neg]
  simp

/-- Witness for C2 (amended): the address "(91, 0)" parses to invalid
coordinates and is routed to the provider path instead of the shortcut. -/
theorem claim2_shortcut_range_validated_witness :
    handlePostSingle envNetErr "(91, 0)" [] = geocodePath envNetErr "(91, 0)" [] :=
  claim2_shortcut_range_validated envNetErr "(91, 0)" [] ⟨91, 0⟩
    (by decide) (by decide)

/-- Counterexample to claim C3: the batch [" "] is neither empty nor longer
than 100 entries, yet the whole batch is rejected before any work (no
provider call, cache untouched) because after filtering whitespace entries
no valid address remains — a third whole-batch validation failure beyond
the two the claim allows. -/
theorem claim3_counterexample :
    handleBatchGeocoding (envZeroResults 0) [" "] []
      = (.badRequest "No valid addresses provided", [], []) ∧
    ¬(([" "] : List String) = [] ∨ ([" "] : List String).length > 100) := by
  constructor
  · decide
  · decide

/-- Claim C3 (amended): handleBatchGeocoding rejects the whole batch exactly
when the input list is empty, longer than 100, or contains no
non-whitespace entry; every rejection happens before any provider call and
leaves the cache untouched. -/
theorem claim3_batch_validation (env : Env) (addresses : List String) (cache : Cache) :
    ((∃ msg, (handleBatchGeocoding env addresses cache).1 = .badRequest msg) ↔
      (addresses = [] ∨ addresses.length > 100 ∨ validAddressesOf addresses = [])) ∧
    (∀ msg, (handleBatchGeocoding env addresses cache).1 = .badRequest msg →
      handleBatchGeocoding env addresses cache = (.badRequest msg, cache, [])) := by
  unfold handleBatchGeocoding
  split_ifs with h1 h2 h3
  · refine ⟨⟨fun _ => Or.inl (List.length_eq_zero.mp h1), fun _ => ⟨_, rfl⟩⟩, ?_⟩
    intro msg hm
    simp only at hm
    cases hm
    rfl
  · refine ⟨⟨fun _ => Or.inr (Or.inl h2), fun _ => ⟨_, rfl⟩⟩, ?_⟩
    intro msg hm
    simp only at hm
    cases hm
    rfl
  · refine ⟨⟨fun _ => Or.inr (Or.inr (List.length_eq_zero.mp h3)), fun _ => ⟨_, rfl⟩⟩, ?_⟩
    intro msg hm
    simp only at hm
    cases hm
    rfl
  · constructor
    · constructor
      · rintro ⟨msg, hm⟩
        simp only at hm
      · rintro (he | hl | hv)
        · exact absurd (he ▸ rfl) h1
        · exact absurd hl h2
        · exact absurd (by rw [hv]; rfl) h3
    · intro msg hm
      simp only at hm

/-- Witness for C3 (amended): a batch of 101 addresses is rejected. -/
theorem claim3_batch_validation_witness :
    ∃ msg, (handleBatchGeocoding (envZeroResults 0) (List.replicate 101 "a") []).1
      = .badRequest msg :=
  (claim3_batch_validation (envZeroResults 0) (List.replicate 101 "a") []).1.mpr
    (Or.inr (Or.inl (by decide)))

lemma mapGetL_mapSetL_ne {β : Type} (m : List (String × β)) {k k' : String} (v : β)
    (h : k ≠ k') : mapGetL (mapSetL m k v) k' = mapGetL m k' := by
  induction m with
  | nil => simp [mapSetL, mapGetL, h]
  | cons hd t ih =>
      obtain ⟨k0, v0⟩ := hd
      by_cases hk : k0 = k
      · subst hk
        simp [mapSetL, mapGetL, h]
      · simp [mapSetL, hk, mapGetL, ih]

lemma keys_mapSetL_of_none {β : Type} (m : List (String × β)) (k : String) (v : β)
    (h : mapGetL m k = none) :
    (mapSetL m k v).map Prod.fst = m.map Prod.fst ++ [k] := by
  induction m with
  | nil => simp [mapSetL]
  | cons hd t ih =>
      obtain ⟨k0, v0⟩ := hd
      by_cases hk : k0 = k
      · rw [mapGetL, if_pos hk] at h
        exact Option.noConfusion h
      · rw [mapGetL, if_neg hk] at h
        simp [mapSetL, hk, ih h]

lemma chunksOfAux_flatten {n : ℕ} (hn : n ≠ 0) :
    ∀ (fuel : ℕ) (l : List String), l.length ≤ fuel →
      (chunksOfAux n fuel l).flatten = l := by
  intro fuel
  induction fuel with
  | zero =>
      intro l hl
      rw [List.length_eq_zero.mp (Nat.le_zero.mp hl)]
      rfl
  | succ fuel ih =>
      intro l hl
      cases l with
      | nil => rfl
      | cons a t =>
          have hlen : ((a :: t).drop n).length ≤ fuel := by
            simp only [List.length_drop, List.length_cons]
            simp only [List.length_cons] at hl
            omega
          rw [chunksOfAux, List.flatten_cons, ih _ hlen]
          · exact List.take_append_drop n (a :: t)
          · simp

lemma foldl_processChunk (env : Env) :
    ∀ (chunks : List (List String)) (st : BatchState),
      chunks.foldl (processChunk env) st
        = (chunks.flatten).foldl (batchStep env) st := by
  intro chunks
  induction chunks with
  | nil => intro st; rfl
  | cons c cs ih =>
      intro st
      rw [List.foldl_cons, List.flatten_cons, List.foldl_append]
      exact ih _

lemma batchGeocodeRun_eq_foldl (env : Env) (addresses : List String) {parallel : ℕ}
    (hp : 0 < parallel) (cache : Cache) :
    batchGeocodeRun env addresses parallel cache
      = (jsSetDedup addresses).foldl (batchStep env) ⟨[], [], cache, []⟩ := by
  unfold batchGeocodeRun chunksOf
  rw [foldl_processChunk]
  rw [chunksOfAux_flatten (Nat.pos_iff_ne_zero.mp hp) _ _ le_rfl]

lemma mem_jsSetDedupAux {a : String} :
    ∀ (l seen : List String), a ∈ jsSetDedupAux seen l → a ∈ l ∧ a ∉ seen := by
  intro l
  induction l with
  | nil => intro seen h; exact absurd h (List.not_mem_nil a)
  | cons b t ih =>
      intro seen h
      rw [jsSetDedupAux] at h
      split_ifs at h with hb
      · obtain ⟨h1, h2⟩ := ih seen h
        exact ⟨List.mem_cons_of_mem b h1, h2⟩
      · rcases List.mem_cons.mp h with rfl | h'
        · exact ⟨List.mem_cons_self a t, fun hc => hb hc⟩
        · obtain ⟨h1, h2⟩ := ih (b :: seen) h'
          exact ⟨List.mem_cons_of_mem b h1, fun hc => h2 (List.mem_cons_of_mem b hc)⟩

lemma jsSetDedupAux_nodup : ∀ (l seen : List String), (jsSetDedupAux seen l).Nodup := by
  intro l
  induction l with
  | nil => intro seen; exact List.nodup_nil
  | cons b t ih =>
      intro seen
      rw [jsSetDedupAux]
      split_ifs with hb
      · exact ih seen
      · refine List.nodup_cons.mpr ⟨?_, ih (b :: seen)⟩
        intro hmem
        exact (mem_jsSetDedupAux t (b :: seen) hmem).2 (List.mem_cons_self b seen)

lemma jsSetDedup_nodup (l : List String) : (jsSetDedup l).Nodup :=
  jsSetDedupAux_nodup l []

lemma mem_jsSetDedupAux_of_mem {a : String} :
    ∀ (l seen : List String), a ∈ l → a ∉ seen → a ∈ jsSetDedupAux seen l := by
  intro l
  induction l with
  | nil => intro seen h _; exact absurd h (List.not_mem_nil a)
  | cons b t ih =>
      intro seen h hs
      rw [jsSetDedupAux]
      rcases List.mem_cons.mp h with rfl | h'
      · rw [if_neg hs]
        exact List.mem_cons_self a _
      · split_ifs with hb
        · exact ih seen h' hs
        · by_cases hab : a = b
          · subst hab
            exact List.mem_cons_self a _
          · exact List.mem_cons_of_mem b
              (ih (b :: seen) h' (by simp [hs, hab]))

lemma mem_jsSetDedup_iff {a : String} (l : List String) :
    a ∈ jsSetDedup l ↔ a ∈ l := by
  constructor
  · intro h
    exact (mem_jsSetDedupAux l [] h).1
  · intro h
    exact mem_jsSetDedupAux_of_mem l [] h (List.not_mem_nil a)

lemma batchFold_keys (env : Env) :
    ∀ (l : List String) (st : BatchState), l.Nodup →
      (∀ a ∈ l, mapGetL st.results a = none ∧ mapGetL st.errors a = none) →
      List.Perm
        (((l.foldl (batchStep env) st).results.map Prod.fst)
          ++ ((l.foldl (batchStep env) st).errors.map Prod.fst))
        ((st.results.map Prod.fst ++ st.errors.map Prod.fst) ++ l) := by
  intro l
  induction l with
  | nil => intro st _ _; simp
  | cons a t ih =>
      intro st hnd hfresh
      obtain ⟨hat, hndt⟩ := List.nodup_cons.mp hnd
      obtain ⟨hfra, hfea⟩ := hfresh a (List.mem_cons_self a t)
      rw [List.foldl_cons]
      rcases hg : geocodeAddress env a st.cache with ⟨res, c', tr⟩
      rcases res with msg | loc
      · have hres1 : (batchStep env st a).results = st.results := by
          unfold batchStep
          rw [hg]
        have herr1 : (batchStep env st a).errors = mapSetL st.errors a msg := by
          unfold batchStep
          rw [hg]
        have hfresh' : ∀ b ∈ t,
            mapGetL (batchStep env st a).results b = none ∧
            mapGetL (batchStep env st a).errors b = none := by
          intro b hb
          have hba : a ≠ b := fun hc => hat (hc ▸ hb)
          rw [hres1, herr1]
          exact ⟨(hfresh b (List.mem_cons_of_mem a hb)).1,
            (mapGetL_mapSetL_ne st.errors msg hba).trans
              (hfresh b (List.mem_cons_of_mem a hb)).2⟩
        have hperm := ih (batchStep env st a) hndt hfresh'
        rw [hres1, herr1, keys_mapSetL_of_none st.errors a msg hfea] at hperm
        refine hperm.trans ?_
        rw [show st.results.map Prod.fst ++ (st.errors.map Prod.fst ++ [a])
            = (st.results.map Prod.fst ++ st.errors.map Prod.fst) ++ [a] from by
          simp [List.append_assoc]]
        rw [List.append_assoc]
        exact List.Perm.refl _
      · have hres1 : (batchStep env st a).results = mapSetL st.results a loc := by
          unfold batchStep
          rw [hg]
        have herr1 : (batchStep env st a).errors = st.errors := by
          unfold batchStep
          rw [hg]
        have hfresh' : ∀ b ∈ t,
            mapGetL (batchStep env st a).results b = none ∧
            mapGetL (batchStep env st a).errors b = none := by
          intro b hb
          have hba : a ≠ b := fun hc => hat (hc ▸ hb)
          rw [hres1, herr1]
          exact ⟨(mapGetL_mapSetL_ne st.results loc hba).trans
              (hfresh b (List.mem_cons_of_mem a hb)).1,
            (hfresh b (List.mem_cons_of_mem a hb)).2⟩
        have hperm := ih (batchStep env st a) hndt hfresh'
        rw [hres1, herr1, keys_mapSetL_of_none st.results a loc hfra] at hperm
        refine hperm.trans ?_
        have hmid : List.Perm
            ((st.results.map Prod.fst ++ ([a] ++ st.errors.map Prod.fst)) ++ t)
            ((st.results.map Prod.fst ++ (st.errors.map Prod.fst ++ [a])) ++ t) :=
          (List.perm_append_comm.append_left (st.results.map Prod.fst)).append_right t
        have h1 : (st.results.map Prod.fst ++ [a] ++ st.errors.map Prod.fst) ++ t
            = (st.results.map Prod.fst ++ ([a] ++ st.errors.map Prod.fst)) ++ t := by
          simp [List.append_assoc]
        have h3 : (st.results.map Prod.fst ++ (st.errors.map Prod.fst ++ [a])) ++ t
            = (st.results.map Prod.fst ++ st.errors.map Prod.fst) ++ (a :: t) := by
          simp [List.append_assoc]
        rw [h1, ← h3]
        exact hmid

/-- Counterexample to claim C1: the value returned by batchGeocodeAddresses
is only the map of successes; it has no `failed` component. For the input
["X"] with a provider that finds no results, the returned outcome is the
empty map — the distinct input address "X" appears in neither a resolved
nor a failed part of the returned outcome, and no error message is
returned (the internal errors map is only logged). -/
theorem claim1_counterexample :
    jsSetDedup ["X"] = ["X"] ∧
    batchGeocodeAddresses (envZeroResults 0) ["X"] 5 [] = [] := by
  constructor
  · decide
  · decide

/-- Claim C1 (amended): internally every distinct input address lands in
exactly one of the `results` and `errors` maps — their key sets partition
the deduplicated input, and failures carry an error message in `errors` —
but batchGeocodeAddresses returns only `results`; the errors map is not
part of the returned value. -/
theorem claim1_batch_partition :
    (∀ (env : Env) (addresses : List String) (parallel : ℕ) (cache : Cache),
      0 < parallel →
      List.Perm
        (((batchGeocodeRun env addresses parallel cache).results.map Prod.fst)
          ++ ((batchGeocodeRun env addresses parallel cache).errors.map Prod.fst))
        (jsSetDedup addresses)) ∧
    (∀ (env : Env) (addresses : List String) (parallel : ℕ) (cache : Cache)
        (a : String), 0 < parallel →
      ¬(a ∈ (batchGeocodeRun env addresses parallel cache).results.map Prod.fst ∧
        a ∈ (batchGeocodeRun env addresses parallel cache).errors.map Prod.fst)) ∧
    (∀ (env : Env) (addresses : List String) (parallel : ℕ) (cache : Cache),
      batchGeocodeAddresses env addresses parallel cache
        = (batchGeocodeRun env addresses parallel cache).results) := by
  have hperm : ∀ (env : Env) (addresses : List String) (parallel : ℕ)
      (cache : Cache), 0 < parallel →
      List.Perm
        (((batchGeocodeRun env addresses parallel cache).results.map Prod.fst)
          ++ ((batchGeocodeRun env addresses parallel cache).errors.map Prod.fst))
        (jsSetDedup addresses) := by
    intro env addresses parallel cache hp
    rw [batchGeocodeRun_eq_foldl env addresses hp cache]
    have h := batchFold_keys env (jsSetDedup addresses) ⟨[], [], cache, []⟩
      (jsSetDedup_nodup addresses) (fun a _ => ⟨rfl, rfl⟩)
    simpa using h
  refine ⟨hperm, ?_, fun _ _ _ _ => rfl⟩
  intro env addresses parallel cache a hp hcontra
  have hnd : (((batchGeocodeRun env addresses parallel cache).results.map Prod.fst)
      ++ ((batchGeocodeRun env addresses parallel cache).errors.map Prod.fst)).Nodup :=
    ((hperm env addresses parallel cache hp).nodup_iff).mpr
      (jsSetDedup_nodup addresses)
  exact (List.disjoint_of_nodup_append hnd) hcontra.1 hcontra.2

/-- Witness for C1 (amended) on the duplicated input ["X", "X"] against the
zero-candidate provider: the combined result/error keys are a permutation
of the deduplicated input. -/
theorem claim1_batch_partition_witness :
    List.Perm
      (((batchGeocodeRun (envZeroResults 0) ["X", "X"] 5 []).results.map Prod.fst)
        ++ ((batchGeocodeRun (envZeroResults 0) ["X", "X"] 5 []).errors.map Prod.fst))
      (jsSetDedup ["X", "X"]) :=
  claim1_batch_partition.1 (envZeroResults 0) ["X", "X"] 5 [] (by decide)

lemma isDigit_ne_paren {c : Char} (h : Char.isDigit c = true) : c ≠ '(' := by
  intro hc
  rw [hc] at h
  exact absurd h (by decide)

lemma mem_takeWhile_digit_ne_paren {cs : List Char} {c : Char}
    (h : c ∈ cs.takeWhile Char.isDigit) : c ≠ '(' :=
  isDigit_ne_paren (List.mem_takeWhile_imp h)

lemma isWhitespace_ne_paren {c : Char} (h : Char.isWhitespace c = true) : c ≠ '(' := by
  intro hc
  rw [hc] at h
  exact absurd h (by decide)

lemma scanUnsigned_decomp {cs : List Char} {v : ℚ} {rest : List Char}
    (h : scanUnsigned cs = some (v, rest)) :
    ∃ tok, cs = tok ++ rest ∧ ∀ c ∈ tok, c ≠ '(' := by
  unfold scanUnsigned at h
  split_ifs at h with hint
  split at h
  · next r2 heq =>
      simp only [Option.some.injEq, Prod.mk.injEq] at h
      refine ⟨cs.takeWhile Char.isDigit ++ '.' :: r2.takeWhile Char.isDigit, ?_, ?_⟩
      · rw [← h.2]
        conv_lhs => rw [← List.takeWhile_append_dropWhile Char.isDigit cs]
        rw [heq, List.append_assoc]
        simp only [List.cons_append]
        rw [List.takeWhile_append_dropWhile]
      · intro c hc
        rcases List.mem_append.mp hc with h1 | h2
        · exact mem_takeWhile_digit_ne_paren h1
        · rcases List.mem_cons.mp h2 with rfl | h3
          · decide
          · exact mem_takeWhile_digit_ne_paren h3
  · next heq =>
      simp only [Option.some.injEq, Prod.mk.injEq] at h
      refine ⟨cs.takeWhile Char.isDigit, ?_, ?_⟩
      · rw [← h.2]
        exact (List.takeWhile_append_dropWhile Char.isDigit cs).symm
      · intro c hc
        exact mem_takeWhile_digit_ne_paren hc

lemma scanNumber_decomp {cs : List Char} {v : ℚ} {rest : List Char}
    (h : scanNumber cs = some (v, rest)) :
    ∃ tok, cs = tok ++ rest ∧ ∀ c ∈ tok, c ≠ '(' := by
  unfold scanNumber at h
  split at h
  · next r heq =>
      rw [Option.map_eq_some'] at h
      obtain ⟨⟨v0, rest0⟩, hscan, hval⟩ := h
      simp only [Prod.mk.injEq] at hval
      obtain ⟨tok, htok, hmem⟩ := scanUnsigned_decomp hscan
      refine ⟨'-' :: tok, ?_, ?_⟩
      · simp [htok, hval.2]
      · intro c hc
        rcases List.mem_cons.mp hc with rfl | h3
        · decide
        · exact hmem c h3
  · exact scanUnsigned_decomp h

lemma dropWhile_ws_decomp (cs : List Char) :
    ∃ tok, cs = tok ++ cs.dropWhile Char.isWhitespace ∧ ∀ c ∈ tok, c ≠ '(' := by
  refine ⟨cs.takeWhile Char.isWhitespace,
    (List.takeWhile_append_dropWhile Char.isWhitespace cs).symm, ?_⟩
  intro c hc
  exact isWhitespace_ne_paren (List.mem_takeWhile_imp hc)

lemma coordPattern2_no_paren {cs : List Char} {lat lng : ℚ}
    (h : coordPattern2 cs = some (lat, lng)) : ∀ c ∈ cs, c ≠ '(' := by
  unfold coordPattern2 at h
  rcases h1 : scanNumber cs with _ | ⟨v1, r1⟩
  · rw [h1] at h
    exact Option.noConfusion h
  · rw [h1] at h
    simp only at h
    obtain ⟨tok1, htok1, hmem1⟩ := scanNumber_decomp h1
    rcases h2 : r1.dropWhile Char.isWhitespace with _ | ⟨c2, r3⟩
    · rw [h2] at h
      exact Option.noConfusion h
    · rw [h2] at h
      by_cases hc2 : c2 = ','
      · subst hc2
        simp only at h
        rcases h3 : scanNumber (r3.dropWhile Char.isWhitespace) with _ | ⟨v2, r4⟩
        · rw [h3] at h
          exact Option.noConfusion h
        · rw [h3] at h
          rcases r4 with _ | ⟨c4, r5⟩
          · simp only [Option.some.injEq, Prod.mk.injEq] at h
            obtain ⟨tokW1, htokW1, hmemW1⟩ := dropWhile_ws_decomp r1
            obtain ⟨tokW2, htokW2, hmemW2⟩ := dropWhile_ws_decomp r3
            obtain ⟨tok2, htok2, hmem2⟩ := scanNumber_decomp h3
            rw [List.append_nil] at htok2
            intro c hc
            rw [htok1] at hc
            rcases List.mem_append.mp hc with hA | hB
            · exact hmem1 c hA
            · rw [htokW1, h2] at hB
              rcases List.mem_append.mp hB with hC | hD
              · exact hmemW1 c hC
              · rcases List.mem_cons.mp hD with rfl | hE
                · decide
                · rw [htokW2] at hE
                  rcases List.mem_append.mp hE with hF | hG
                  · exact hmemW2 c hF
                  · rw [htok2] at hG
                    exact hmem2 c hG
          · exact Option.noConfusion h
      · rw [show (match c2 :: r3 with
            | ',' :: r3 =>
                match scanNumber (r3.dropWhile Char.isWhitespace) with
                | some (lng, []) => some (v1, lng)
                | _ => none
            | _ => none) = (none : Option (ℚ × ℚ)) from by
          split
          · next r3x heqx =>
              injection heqx with hA hB
              exact absurd hA hc2
          · rfl] at h
        exact Option.noConfusion h

lemma tryParenAt_none {c : Char} {cs : List Char} (h : c ≠ '(') :
    tryParenAt (c :: cs) = none := by
  unfold tryParenAt
  split
  · next r1 heq =>
      injection heq with h1 h2
      exact absurd h1 h
  · rfl

lemma findParen_none_of_no_paren :
    ∀ (cs : List Char), (∀ c ∈ cs, c ≠ '(') → findParen cs = none := by
  intro cs
  induction cs with
  | nil => intro _; rfl
  | cons c t ih =>
      intro h
      rw [findParen, tryParenAt_none (h c (List.mem_cons_self c t)),
        ih (fun x hx => h x (List.mem_cons_of_mem c hx))]

/-- Counterexample to claim C8: the string " 1,2" has trimmed content
exactly "1,2" (which the full-string pattern of the code itself accepts, as the
second conjunct shows), yet parseCoordinatesFromLocation extracts no
coordinates from it, because the regex is anchored to the untrimmed string
and the leading space makes it fail. -/
theorem claim8_counterexample :
    jsTrim " 1,2" = "1,2" ∧
    coordPattern2 ("1,2".data) = some (1, 2) ∧
    (parseCoordinatesFromLocation " 1,2").coordinates = none := by
  refine ⟨by decide, by decide, by decide⟩

/-- Claim C8 (amended): for every string that in its entirety — untrimmed —
is exactly `<lat>,<lng>` (optional whitespace around the comma, optional
leading minus, optional decimal part, no parentheses), the parser returns
the two parsed numbers as the coordinates and the address equal to the
original string unchanged. -/
theorem claim8_pattern2_full_string (s : String) (lat lng : ℚ)
    (h : coordPattern2 s.data = some (lat, lng)) :
    parseCoordinatesFromLocation s = ⟨some ⟨lat, lng⟩, s⟩ := by
  unfold parseCoordinatesFromLocation
  rw [findParen_none_of_no_paren s.data (coordPattern2_no_paren h), h]

/-- Witness for C8 (amended) at "-12.5, 3": the parser returns the pair
(-12.5, 3) and the original string as the address. -/
theorem claim8_pattern2_full_string_witness :
    parseCoordinatesFromLocation "-12.5, 3"
      = ⟨some ⟨-(mkRat 125 10), 3⟩, "-12.5, 3"⟩ :=
  claim8_pattern2_full_string "-12.5, 3" (-(mkRat 125 10)) 3 (by decide)

lemma mapGetL_eq_none_of_not_mem {β : Type} {m : List (String × β)} {k : String}
    (h : k ∉ m.map Prod.fst) : mapGetL m k = none := by
  induction m with
  | nil => rfl
  | cons hd t ih =>
      obtain ⟨k0, v0⟩ := hd
      simp only [List.map_cons, List.mem_cons, not_or] at h
      rw [mapGetL, if_neg (fun hc => h.1 hc.symm)]
      exact ih h.2

lemma mapSetL_eq_append {β : Type} {m : List (String × β)} {k : String} (v : β)
    (h : mapGetL m k = none) : mapSetL m k v = m ++ [(k, v)] := by
  induction m with
  | nil => rfl
  | cons hd t ih =>
      obtain ⟨k0, v0⟩ := hd
      rw [mapGetL] at h
      split_ifs at h with hk
      rw [mapSetL, if_neg hk, ih h]
      rfl

lemma insertByTs_perm (e : String × CacheEntry) (l : Cache) :
    List.Perm (insertByTs e l) (e :: l) := by
  induction l with
  | nil => exact List.Perm.refl _
  | cons f r ih =>
      rw [insertByTs]
      split_ifs with hf
      · exact (ih.cons f).trans (List.Perm.swap e f r)
      · exact List.Perm.refl _

lemma sortByTs_perm (c : Cache) : List.Perm (sortByTs c) c := by
  induction c with
  | nil => exact List.Perm.refl _
  | cons a t ih =>
      have : sortByTs (a :: t) = insertByTs a (sortByTs t) := rfl
      rw [this]
      exact (insertByTs_perm a (sortByTs t)).trans (ih.cons a)

lemma insertByTs_of_le (e : String × CacheEntry) (l : Cache)
    (h : ∀ f ∈ l, e.2.timestamp ≤ f.2.timestamp) : insertByTs e l = e :: l := by
  cases l with
  | nil => rfl
  | cons f r =>
      rw [insertByTs, if_neg (not_lt.mpr (h f (List.mem_cons_self f r)))]

lemma sortByTs_of_sorted (c : Cache)
    (h : c.Pairwise (fun a b => a.2.timestamp ≤ b.2.timestamp)) : sortByTs c = c := by
  induction c with
  | nil => rfl
  | cons a t ih =>
      obtain ⟨ha, ht⟩ := List.pairwise_cons.mp h
      have h1 : sortByTs (a :: t) = insertByTs a (sortByTs t) := rfl
      rw [h1, ih ht]
      exact insertByTs_of_le a t ha

lemma foldl_mapDelete_eq_filter :
    ∀ (victims : List (String × CacheEntry)) (c : Cache),
      victims.foldl (fun acc kv => mapDelete acc kv.1) c
        = c.filter (fun kv => victims.all (fun w => decide ¬(kv.1 = w.1))) := by
  intro victims
  induction victims with
  | nil =>
      intro c
      simp [List.filter_true]
  | cons w ws ih =>
      intro c
      rw [List.foldl_cons, ih (mapDelete c w.1)]
      unfold mapDelete
      rw [List.filter_filter]
      apply List.filter_congr
      intro kv _
      simp only [List.all_cons, Bool.and_comm]

lemma length_filter_add_length_not (p : String × CacheEntry → Bool) (c : Cache) :
    (c.filter p).length + (c.filter (fun kv => !p kv)).length = c.length := by
  induction c with
  | nil => rfl
  | cons a t ih =>
      by_cases h : p a
      · rw [List.filter_cons_of_pos h, List.filter_cons_of_neg (by simp [h])]
        simp only [List.length_cons]
        omega
      · rw [List.filter_cons_of_neg h,
          List.filter_cons_of_pos (by simp [Bool.eq_false_iff.mpr h])]
        simp only [List.length_cons]
        omega

lemma enforceWith_length_le (m : ℕ) (c : Cache) : (enforceWith m c).length ≤ m := by
  unfold enforceWith
  split_ifs with hlen
  · rw [foldl_mapDelete_eq_filter]
    set victims := (sortByTs c).take (c.length - m) with hvic
    set keep : String × CacheEntry → Bool :=
      fun kv => victims.all (fun w => decide ¬(kv.1 = w.1)) with hkeep
    have hfail : ∀ w ∈ victims, keep w = false := by
      intro w hw
      rw [hkeep]
      refine Bool.eq_false_iff.mpr ?_
      intro hall
      rw [List.all_eq_true] at hall
      have := hall w hw
      simp at this
    have hvlen : victims.length = c.length - m := by
      rw [hvic, List.length_take, (sortByTs_perm c).length_eq]
      omega
    have hsub : List.Sublist (victims.filter (fun kv => !keep kv))
        ((sortByTs c).filter (fun kv => !keep kv)) :=
      (List.take_sublist _ _).filter _
    have hveq : victims.filter (fun kv => !keep kv) = victims :=
      List.filter_eq_self.mpr (fun w hw => by rw [hfail w hw]; rfl)
    have hperm : ((sortByTs c).filter (fun kv => !keep kv)).length
        = (c.filter (fun kv => !keep kv)).length :=
      ((sortByTs_perm c).filter _).length_eq
    have hge : c.length - m ≤ (c.filter (fun kv => !keep kv)).length := by
      rw [← hperm, ← hvlen]
      have := hsub.length_le
      rw [hveq] at this
      exact this
    have htotal := length_filter_add_length_not keep c
    omega
  · omega

lemma enforceWith_succ (m : ℕ) (e : String × CacheEntry) (rest : Cache)
    (hlen : (e :: rest).length = m + 1)
    (hsorted : (e :: rest).Pairwise (fun a b => a.2.timestamp ≤ b.2.timestamp))
    (hkeys : ((e :: rest).map Prod.fst).Nodup) :
    enforceWith m (e :: rest) = rest := by
  unfold enforceWith
  rw [if_pos (by omega)]
  rw [sortByTs_of_sorted _ hsorted]
  rw [show (e :: rest).length - m = 1 from by omega]
  rw [show (e :: rest).take 1 = [e] from by simp]
  rw [List.foldl_cons, List.foldl_nil]
  unfold mapDelete
  rw [List.filter_cons_of_neg (by simp)]
  apply List.filter_eq_self.mpr
  intro kv hkv
  simp only [List.map_cons, List.nodup_cons] at hkeys
  refine decide_eq_true ?_
  intro hc
  exact hkeys.1 (hc ▸ List.mem_map_of_mem Prod.fst hkv)

lemma keys_entryOf_map (l : List (String × GeocodedLocation × ℤ)) :
    (l.map entryOf).map Prod.fst = l.map (fun x => getCacheKey x.1) := by
  rw [List.map_map]
  rfl

lemma cacheResultWith_suffix (m : ℕ) (hm : 0 < m)
    (done : List (String × GeocodedLocation × ℤ)) (it : String × GeocodedLocation × ℤ)
    (hkeys : ((done ++ [it]).map (fun x => getCacheKey x.1)).Nodup)
    (hts : (done ++ [it]).Pairwise (fun a b => a.2.2 < b.2.2)) :
    cacheResultWith m it.1 it.2.1 it.2.2 ((done.drop (done.length - m)).map entryOf)
      = ((done ++ [it]).drop ((done ++ [it]).length - m)).map entryOf := by
  have hSsub : List.Sublist (done.drop (done.length - m)) done := List.drop_sublist _ _
  have hitfresh : getCacheKey it.1 ∉ done.map (fun x => getCacheKey x.1) := by
    rw [List.map_append] at hkeys
    have := (List.nodup_append.mp hkeys).2.2
    intro hc
    exact this hc (by simp)
  have hkeyfresh : getCacheKey it.1
      ∉ ((done.drop (done.length - m)).map entryOf).map Prod.fst := by
    rw [keys_entryOf_map]
    intro hc
    exact hitfresh ((List.map_subset _ hSsub.subset) hc)
  have hset : mapSetL ((done.drop (done.length - m)).map entryOf) (getCacheKey it.1)
        ⟨it.2.1, it.2.2, CACHE_TTL⟩
      = ((done.drop (done.length - m)) ++ [it]).map entryOf := by
    rw [mapSetL_eq_append _ (mapGetL_eq_none_of_not_mem hkeyfresh)]
    rw [List.map_append]
    rfl
  unfold cacheResultWith
  rw [hset]
  have hsubapp : List.Sublist ((done.drop (done.length - m)) ++ [it]) (done ++ [it]) :=
    hSsub.append_right [it]
  by_cases hcase : done.length < m
  · have hdone0 : done.length - m = 0 := by omega
    rw [hdone0, List.drop_zero]
    rw [enforceWith_eq_of_le (by simp; omega)]
    rw [show (done ++ [it]).length - m = 0 from by simp; omega, List.drop_zero]
  · push_neg at hcase
    have hSlen : (done.drop (done.length - m)).length = m := by
      rw [List.length_drop]
      omega
    rcases hS : done.drop (done.length - m) with _ | ⟨s0, S'⟩
    · rw [hS] at hSlen
      simp at hSlen
      omega
    · rw [hS] at hsubapp hSlen
      have hdropS : done.drop ((done.length - m) + 1) = S' := by
        rw [← List.tail_drop, hS]
        rfl
      have hmapcons : ((s0 :: S') ++ [it]).map entryOf
          = entryOf s0 :: ((S' ++ [it]).map entryOf) := by
        simp
      rw [hmapcons]
      rw [enforceWith_succ m (entryOf s0) ((S' ++ [it]).map entryOf) ?_ ?_ ?_]
      · rw [show (done ++ [it]).length - m = (done.length - m) + 1 from by
          simp; omega]
        rw [List.drop_append_of_le_length (by omega)]
        rw [hdropS]
      · rw [← hmapcons]
        simp only [List.length_map, List.length_append, List.length_cons,
          List.length_nil]
        simp only [List.length_cons] at hSlen
        omega
      · rw [← hmapcons]
        rw [List.pairwise_map]
        have hsubpw := hts.sublist hsubapp
        exact hsubpw.imp (fun h => le_of_lt h)
      · rw [← hmapcons, keys_entryOf_map]
        exact hkeys.sublist (hsubapp.map _)

lemma putManyWith_drop (m : ℕ) (hm : 0 < m) :
    ∀ (items done : List (String × GeocodedLocation × ℤ)),
      ((done ++ items).map (fun x => getCacheKey x.1)).Nodup →
      (done ++ items).Pairwise (fun a b => a.2.2 < b.2.2) →
      putManyWith m items ((done.drop (done.length - m)).map entryOf)
        = ((done ++ items).drop ((done ++ items).length - m)).map entryOf := by
  intro items
  induction items with
  | nil =>
      intro done h1 h2
      rw [putManyWith, List.foldl_nil, List.append_nil]
  | cons it its ih =>
      intro done h1 h2
      have hpre : List.Sublist (done ++ [it]) (done ++ it :: its) := by
        refine List.Sublist.append_left ?_ done
        exact (List.singleton_sublist.mpr (List.mem_cons_self it its))
      rw [putManyWith, List.foldl_cons]
      rw [cacheResultWith_suffix m hm done it
        (h1.sublist (hpre.map _)) (h2.sublist hpre)]
      have hassoc : done ++ it :: its = (done ++ [it]) ++ its := by
        rw [List.append_assoc]
        rfl
      rw [hassoc] at h1 h2
      rw [hassoc]
      exact ih (done ++ [it]) h1 h2

/-- Counterexample is not needed for C7; the claim is confirmed. The claim
theorem: the cache size limit is 1000; inserting m + k entries with
pairwise-distinct normalized keys and strictly increasing timestamps into
an empty cache (size limit m) leaves exactly the last m insertions, in
order — the k evicted entries are exactly the k oldest — and the final
cache has exactly m entries; moreover every single insertion leaves the
cache at no more than MAX_CACHE_SIZE entries, and a lookup of a fresh
(unexpired) entry returns its data and leaves the cache exactly unchanged
(no promotion on read). -/
theorem claim7_eviction_fifo :
    MAX_CACHE_SIZE = 1000 ∧
    (∀ (m : ℕ) (items : List (String × GeocodedLocation × ℤ)) (k : ℕ), 0 < m →
      (items.map (fun x => getCacheKey x.1)).Nodup →
      items.Pairwise (fun a b => a.2.2 < b.2.2) →
      items.length = m + k →
      putManyWith m items [] = (items.drop k).map entryOf ∧
      (putManyWith m items []).length = m) ∧
    (∀ (addr : String) (loc : GeocodedLocation) (now : ℤ) (c : Cache),
      (cacheResult addr loc now c).length ≤ MAX_CACHE_SIZE) ∧
    (∀ (addr : String) (now : ℤ) (c : Cache) (e : CacheEntry),
      mapGetL c (getCacheKey addr) = some e → now - e.timestamp ≤ e.ttl →
      getCachedResult addr now c = (some e.data, c)) := by
  refine ⟨rfl, ?_, ?_, ?_⟩
  · intro m items k hm hnd hts hlen
    have h := putManyWith_drop m hm items [] (by simpa using hnd) (by simpa using hts)
    simp only [List.nil_append, List.length_nil, Nat.zero_sub, List.drop_zero,
      List.drop, List.map_nil] at h
    have hk : items.length - m = k := by omega
    rw [hk] at h
    refine ⟨h, ?_⟩
    rw [h, List.length_map, List.length_drop]
    omega
  · intro addr loc now c
    exact enforceWith_length_le MAX_CACHE_SIZE _
  · intro addr now c e hget hfresh
    unfold getCachedResult
    simp only [hget]
    rw [if_neg (by omega)]

/-- Witness for C7 at size limit 2: inserting three entries with distinct
keys and increasing timestamps keeps exactly the last two; a single
insertion respects the global size bound; and a fresh lookup does not
modify the cache. -/
theorem claim7_eviction_fifo_witness :
    putManyWith 2 [("a", locX, 0), ("b", locX, 1), ("c", locX, 2)] []
      = ([("b", locX, 1), ("c", locX, 2)].map entryOf) ∧
    (cacheResult "a" locX 0 []).length ≤ MAX_CACHE_SIZE ∧
    getCachedResult "a" 5 [("a", ⟨locX, 0, 3600000⟩)]
      = (some locX, [("a", ⟨locX, 0, 3600000⟩)]) := by
  refine ⟨?_, ?_, ?_⟩
  · exact (claim7_eviction_fifo.2.1 2
      [("a", locX, 0), ("b", locX, 1), ("c", locX, 2)] 1
      (by decide) (by decide) (by decide) (by decide)).1
  · exact claim7_eviction_fifo.2.2.1 "a" locX 0 []
  · exact claim7_eviction_fifo.2.2.2 "a" 5 [("a", ⟨locX, 0, 3600000⟩)]
      ⟨locX, 0, 3600000⟩ (by decide) (by decide)

end CalendarMaps

namespace CalendarMaps

example : parseCoordinatesFromLocation "40.7128,-74.0060"
    = ⟨some ⟨mkRat 407128 10000, -(mkRat 740060 10000)⟩, "40.7128,-74.0060"⟩ := by decide

example : parseCoordinatesFromLocation "Conference Room (37.5, -122.25)"
    = ⟨some ⟨mkRat 375 10, -(mkRat 12225 100)⟩, "Conference Room"⟩ := by decide

example : parseCoordinatesFromLocation " 1,2" = ⟨none, " 1,2"⟩ := by decide

example : parseCoordinatesFromLocation "somewhere" = ⟨none, "somewhere"⟩ := by decide

example : mapGetL (mapSetL ([] : Cache) "a" ⟨⟨"x", "x", ⟨1, 2⟩, none, none⟩, 0, 5⟩) "a"
    = some ⟨⟨"x", "x", ⟨1, 2⟩, none, none⟩, 0, 5⟩ := by decide

example : getCacheKey " PaRiS " = "paris" := by decide

end CalendarMaps
